import Mathlib

/-
Verification of the weirdfs scanner (the canonical Go scanner in this
repository).  The definitions below are shallow embeddings of the Go
functions; external effects (extended-attribute access, the DeRez
disassembler, the plain-text content probe, data-fork reads and writes)
are modelled as explicit inputs carried in environment records, with an
Except value standing for a failed external call.  A Go panic is
modelled as Except.error propagating out of the function.
-/

namespace Weirdfs

/-- Single-quote character (code point 39), used when rendering warnings. -/
def sq : Char := Char.ofNat 39

/-- Lowercasing of one character as strings.ToLower performs it on the
characters relevant here: ASCII letters, plus the Greek capital pi which
lowers into the pi admitted by the extension pattern. -/
def goLowerChar (c : Char) : Char :=
  if c = 'Π' then 'π' else c.toLower

/-- Model of strings.ToLower, applied character by character. -/
def goLower (s : String) : String := ⟨s.data.map goLowerChar⟩

/-- Auxiliary for splitChar, accumulating the current field in reverse. -/
def splitCharAux (sep : Char) : List Char → List Char → List String
  | [], acc => [⟨acc.reverse⟩]
  | c :: rest, acc =>
    if c = sep then ⟨acc.reverse⟩ :: splitCharAux sep rest []
    else splitCharAux sep rest (c :: acc)

/-- Model of strings.Split with a one-character separator. -/
def splitChar (sep : Char) (s : String) : List String := splitCharAux sep s.data []

/-- Auxiliary for filepathExt: walk the reversed path, keeping the suffix
seen so far; stop at a path separator, succeed at the first dot. -/
def filepathExtAux : List Char → List Char → List Char
  | [], _ => []
  | c :: rest, acc =>
    if c = '/' then []
    else if c = '.' then '.' :: acc
    else filepathExtAux rest (c :: acc)

/-- Model of path/filepath.Ext: the suffix of the final path element
beginning at its last dot, or empty when that element has no dot. -/
def filepathExt (path : String) : String := ⟨filepathExtAux path.data.reverse []⟩

/-- Model of path/filepath.Base: strip trailing separators, then keep the
final element; empty input gives a dot, an all-separator input gives the
separator. -/
def filepathBase (path : String) : String :=
  if path = "" then "."
  else
    let stripped := (path.data.reverse.dropWhile (fun c => c = '/')).reverse
    if stripped = [] then "/"
    else ⟨(stripped.reverse.takeWhile (fun c => c ≠ '/')).reverse⟩

/-- Character class of the validFileExtension pattern: lowercase ASCII
letters, digits, pi, or a hyphen. -/
def validExtChar (c : Char) : Bool :=
  (decide ('a' ≤ c) && decide (c ≤ 'z')) ||
    (decide ('0' ≤ c) && decide (c ≤ '9')) || c == 'π' || c == '-'

/-- Model of matching the anchored pattern of validFileExtension: a
leading period followed by one or more characters of the class. -/
def validFileExtensionMatch (s : String) : Bool :=
  match s.data with
  | '.' :: rest => (!rest.isEmpty) && rest.all validExtChar
  | _ => false

/-- Translation of strictFileExtension: lowercase the extension of the
path and keep it only when it matches the strict pattern. -/
def strictFileExtension (path : String) : String :=
  let ext := goLower (filepathExt path)
  if validFileExtensionMatch ext then ext else ""

/-- Translation of defaultIgnoredFiles. -/
def defaultIgnoredFiles : List String :=
  [".DS_Store", "PkgInfo", "projectData", "displayState", "documentData", "Icon\r"]

/-- Translation of defaultIgnoredPaths. -/
def defaultIgnoredPaths : List String :=
  [".git", ".svn", ".fseventsd", ".Trashes", ".Spotlight-V100"]

/-- Translation of defaultIgnoredXattrs. -/
def defaultIgnoredXattrs : List String :=
  ["com.apple.FinderInfo",
   "com.apple.Preview.UIstate.v1",
   "com.apple.TextEncoding",
   "com.apple.diskimages.recentcksum",
   "com.apple.metadata:_kTimeMachineNewestSnapshot",
   "com.apple.metadata:_kTimeMachineOldestSnapshot",
   "com.apple.metadata:com_apple_backup_excludeItem",
   "com.apple.metadata:kMDItemFinderComment",
   "com.apple.metadata:kMDItemIsScreenCapture",
   "com.apple.metadata:kMDItemScreenCaptureType",
   "com.apple.metadata:kMDItemWhereFroms",
   "com.apple.quarantine",
   "com.dropbox.attributes",
   "com.macromates.bookmarked_lines",
   "com.macromates.caret",
   "com.dropbox.attrs"]

/-- Translation of defaultAllowedNamesWithoutFileExtension. -/
def defaultAllowedNamesWithoutFileExtension : List String :=
  ["Capfile", "Gemfile", "Rakefile", "Procfile", "CHANGELOG", "LICENCE",
   "LICENSE", "MIT-LICENSE", "README", "TODO", "VERSION", "INSTALL",
   "crontab", "Desktop DB", "Desktop DF", "ModuleDataB", "ObjectDataB"]

/-- Translation of illegalPathnameChars. -/
def illegalPathnameChars : List Char := [':', '/', '\\']

/-- Translation of illegalTrailingChars. -/
def illegalTrailingChars : List Char := ['.', ' ']

/-- Translation of isIgnoredFile: membership of the basename in the
static ignored-file list. -/
def isIgnoredFile (basename : String) : Bool :=
  defaultIgnoredFiles.contains basename

/-- Translation of isIgnoredPath: some component of the separator-split
path is in the static ignored-path list. -/
def isIgnoredPath (path : String) : Bool :=
  (splitChar ('/') path).any (fun part => defaultIgnoredPaths.contains part)

/-- Translation of removeIgnoredXattrs: drop every attribute name that
occurs in the static ignore list, keeping the rest in order. -/
def removeIgnoredXattrs : List String → List String
  | [] => []
  | attr :: rest =>
    if defaultIgnoredXattrs.contains attr then removeIgnoredXattrs rest
    else attr :: removeIgnoredXattrs rest

/-- Auxiliary for uniqueStrings carrying the set of values seen so far. -/
def uniqueStringsAux : List String → List String → List String
  | [], _ => []
  | x :: rest, seen =>
    if seen.contains x then uniqueStringsAux rest seen
    else x :: uniqueStringsAux rest (x :: seen)

/-- Translation of uniqueStrings: order-preserving first-occurrence
deduplication. -/
def uniqueStrings (l : List String) : List String := uniqueStringsAux l []

/-- Lexicographic strict comparison of character lists, matching byte
order on the ASCII strings compared here. -/
def charListLT : List Char → List Char → Bool
  | [], [] => false
  | [], _ :: _ => true
  | _ :: _, [] => false
  | a :: as, b :: bs => if a < b then true else if b < a then false else charListLT as bs

/-- Non-strict string comparison derived from charListLT. -/
def strLeB (a b : String) : Bool := !(charListLT b.data a.data)

/-- Insert a string into an already sorted list. -/
def insertSorted (x : String) : List String → List String
  | [] => [x]
  | y :: rest => if strLeB x y then x :: y :: rest else y :: insertSorted x rest

/-- Insertion sort over strings, modelling sort.Strings.  Applied to
duplicate-free inputs, where any sort yields the same list. -/
def sortStrings : List String → List String
  | [] => []
  | x :: rest => insertSorted x (sortStrings rest)

/-- The resource-fork extended-attribute name the scanner looks for. -/
def rfAttr : String := "com.apple.ResourceFork"

/-- Match one line of DeRez output against the derezResourceType pattern:
the line must begin with the data keyword and a quoted four-character
type code; the capture is that code. -/
def derezLineType (line : String) : Option String :=
  match line.data with
  | 'd' :: 'a' :: 't' :: 'a' :: ' ' :: q1 :: c1 :: c2 :: c3 :: c4 :: q2 :: _ =>
    if q1 = sq ∧ q2 = sq then some ⟨[c1, c2, c3, c4]⟩ else none
  | _ => none

/-- All type-code captures of the multiline derezResourceType pattern,
one possible match per line, in line order. -/
def parseDerezOutput (out : String) : List String :=
  (splitChar ('\n') out).filterMap derezLineType

/-- Translation of extractResourceTypes: a failed DeRez invocation is an
error; otherwise the distinct captured type codes, sorted. -/
def extractResourceTypes : Except String String → Except String (List String)
  | .error e => .error e
  | .ok out => .ok (sortStrings (uniqueStrings (parseDerezOutput out)))

/-- Per-entry external inputs of evaluateXattrs: the raw resource-fork
bytes from the attribute read, and the DeRez invocation outcome. -/
structure XattrEnv where
  rsrc : Except String (List Nat)
  derezOut : Except String String

/-- The resource types the entry yields: the extractResourceTypes value,
or the empty list when the invocation failed. -/
def extractedTypes (env : XattrEnv) : List String :=
  match extractResourceTypes env.derezOut with
  | .ok ts => ts
  | .error _ => []

/-- Byte length of the fetched resource fork; a failed read leaves the
nil slice of the Go code, of length zero. -/
def rsrcLen (env : XattrEnv) : Nat :=
  match env.rsrc with
  | .ok bs => bs.length
  | .error _ => 0

/-- The empty-data-fork warning, carrying the resource byte length. -/
def dataForkEmptyMsg (n : Nat) : String :=
  "Data fork is empty; resource fork may contain all data (" ++ toString n ++ ")."

/-- Loop body of evaluateXattrs over the attribute list: only the
resource-fork attribute acts; a failed attribute read or DeRez run adds
an error warning; when type codes were extracted the aggregate count for
the normalized extension is bumped, the codes are merged without
duplicates, and a zero data fork adds the empty-fork warning. -/
def evalXattrsLoop (path : String) (size : Nat) (env : XattrEnv) :
    List String → (String → Nat) → (String → List String) → List String →
    ((String → Nat) × (String → List String) × List String)
  | [], report, rr, warns => (report, rr, warns)
  | attr :: rest, report, rr, warns =>
    if attr = rfAttr then
      let warns1 := warns ++ (match env.rsrc with
        | .error e => ["Error: " ++ e]
        | .ok _ => [])
      let warns2 := warns1 ++ (match extractResourceTypes env.derezOut with
        | .error e => ["Error: " ++ e]
        | .ok _ => [])
      let types := extractedTypes env
      if types.isEmpty then
        evalXattrsLoop path size env rest report rr warns2
      else
        let ext := strictFileExtension path
        let key := if ext = "" then "(no extension)" else ext
        let report2 := fun k => if k = key then report k + 1 else report k
        let rr2 := fun k => if k = key then uniqueStrings (rr k ++ types) else rr k
        let warns3 := warns2 ++ (if size = 0 then [dataForkEmptyMsg (rsrcLen env)] else [])
        evalXattrsLoop path size env rest report2 rr2 warns3
    else evalXattrsLoop path size env rest report rr warns

/-- Model of strings.Join. -/
def joinWith (sep : String) : List String → String
  | [] => ""
  | [x] => x
  | x :: y :: rest => x ++ sep ++ joinWith sep (y :: rest)

/-- Translation of evaluateXattrs: an informational line listing the
attributes when any are present, then the attribute loop; returns the
updated count map, the updated type-code map, the logs and the warns. -/
def evaluateXattrs (path : String) (size : Nat) (attrs : List String) (env : XattrEnv)
    (report : String → Nat) (rr : String → List String) :
    ((String → Nat) × (String → List String) × List String × List String) :=
  let logs := if attrs.isEmpty then [] else ["xattrs: " ++ joinWith (", ") attrs]
  let r := evalXattrsLoop path size env attrs report rr []
  (r.1, r.2.1, logs, r.2.2)

/-- Word character of the content-probe pattern boundaries. -/
def isWordChar (c : Char) : Bool := c.isAlphanum || c == '_'

/-- A word boundary holds against a neighbouring character that is
absent or not a word character. -/
def boundaryOk : Option Char → Bool
  | none => true
  | some c => !isWordChar c

/-- Scan for an occurrence of the needle delimited by word boundaries,
carrying the character preceding the current position. -/
def scanBoundary (needle : List Char) : Option Char → List Char → Bool
  | _, [] => false
  | prev, c :: rest =>
    (needle.isPrefixOf (c :: rest) && boundaryOk prev &&
      boundaryOk ((c :: rest).drop needle.length).head?) ||
    scanBoundary needle (some c) rest

/-- The alternatives of the plain-text probe pattern. -/
def plainTextNeedles : List String :=
  ["ASCII text", "Unicode text", "ISO-8859 text", "very short file"]

/-- Translation of isPlainTextFile: a failed probe invocation panics,
modelled as an error; otherwise the output is the empty-file answer or
matches the boundary-delimited text pattern. -/
def isPlainTextFile : Except String String → Except String Bool
  | .error e => .error e
  | .ok out =>
    .ok (out == "empty\n" ||
      plainTextNeedles.any (fun n => scanBoundary n.data none out.data))

/-- Warning for a name containing an illegal character. -/
def illegalCharMsg (c : Char) : String :=
  "Name contains illegal character " ++ String.singleton sq ++
    String.singleton c ++ String.singleton sq ++ "."

/-- Warning for a name ending in an illegal character. -/
def trailingCharMsg (c : Char) : String :=
  "Name ends with illegal character " ++ String.singleton sq ++
    String.singleton c ++ String.singleton sq ++ "."

/-- Warning for a regular file without a valid extension. -/
def missingExtMsg : String := "Missing file extension."

/-- Model of strings.IndexRune compared against minus one: does the
string contain the character. -/
def containsChar (s : String) (c : Char) : Bool := s.data.contains c

/-- Translation of checkBasename: warn per illegal character present in
the basename, warn when the final character is an illegal trailing one,
and for regular files without a valid strict extension warn about the
missing extension unless the basename is allow-listed or the enabled
plain-text probe accepts the file.  A failed probe panics. -/
def checkBasename (path : String) (isRegular : Bool) (allowTextMissingExtension : Bool)
    (probe : Except String String) : Except String (List String × List String) :=
  let base := filepathBase path
  let warnsA := (illegalPathnameChars.filter (fun c => containsChar base c)).map illegalCharMsg
  let lastRune := match base.data.getLast? with
    | some c => c
    | none => Char.ofNat 65533
  let warnsB := warnsA ++ (illegalTrailingChars.filter (fun c => lastRune == c)).map trailingCharMsg
  if isRegular && (strictFileExtension path == "") then
    if defaultAllowedNamesWithoutFileExtension.contains base then
      Except.ok ([], warnsB)
    else if allowTextMissingExtension then
      match isPlainTextFile probe with
      | .error e => Except.error e
      | .ok true => Except.ok ([], warnsB)
      | .ok false => Except.ok ([], warnsB ++ [missingExtMsg])
    else Except.ok ([], warnsB ++ [missingExtMsg])
  else Except.ok ([], warnsB)

/-- Model of strings.Replace of every path separator by a double
underscore. -/
def flattenPath (s : String) : String :=
  ⟨s.data.foldr (fun c acc => if c = '/' then '_' :: '_' :: acc else c :: acc) []⟩

/-- One step of path cleaning over the split components: empty and dot
components vanish, a dot-dot pops a previous component when one exists
and is otherwise kept only on relative paths. -/
def cleanFold (rooted : Bool) (acc : List String) (comp : String) : List String :=
  if comp == "" || comp == "." then acc
  else if comp == ".." then
    match acc with
    | [] => if rooted then [] else [".."]
    | p :: ps => if p == ".." then ".." :: p :: ps else ps
  else comp :: acc

/-- Model of path/filepath.Clean on separator-based paths. -/
def filepathClean (path : String) : String :=
  if path = "" then "."
  else
    let rooted := path.data.head? == some '/'
    let comps := ((splitChar ('/') path).foldl (cleanFold rooted) []).reverse
    let s := joinWith ("/") comps
    if rooted then "/" ++ s
    else if s = "" then "." else s

/-- Model of path/filepath.Join on two elements: the nonempty elements
joined by a separator, then cleaned. -/
def filepathJoin (a b : String) : String :=
  if a ≠ "" then filepathClean (a ++ "/" ++ b)
  else if b ≠ "" then filepathClean b
  else ""

/-- Per-entry external inputs of copyStrippedFile: the resource-fork
attribute read, the data-fork read, and the destination write outcome. -/
structure StripEnv where
  rsrc : Except String (List Nat)
  readData : Except String (List Nat)
  writeRes : Except String Unit

/-- Loop body of copyStrippedFile over the attribute list: the first
resource-fork attribute with a readable non-empty fork triggers the
single data-fork copy; a failed read or write of the copy panics.  The
third result component records the writes performed. -/
def copyStripLoop (path dest : String) (env : StripEnv) :
    List String → Except String (List String × Nat × List (String × List Nat))
  | [] => .ok ([], 0, [])
  | attr :: rest =>
    if attr = rfAttr then
      match env.rsrc with
      | .error _ => .ok ([], 0, [])
      | .ok rsrc =>
        if rsrc.length = 0 then .ok ([], 0, [])
        else
          let destPath := filepathJoin dest (flattenPath path)
          match env.readData with
          | .error e => .error e
          | .ok data =>
            match env.writeRes with
            | .error e => .error e
            | .ok _ => .ok (["Copied data-only version to " ++ destPath], 1, [(destPath, data)])
    else copyStripLoop path dest env rest

/-- Translation of copyStrippedFile: a file whose strict extension is in
the caller-supplied excluded list is skipped outright; otherwise the
attribute loop decides. -/
def copyStrippedFile (path : String) (attrs : List String) (dest : String)
    (ignoredExtensions : List String) (env : StripEnv) :
    Except String (List String × Nat × List (String × List Nat)) :=
  let fileExt := strictFileExtension path
  if ignoredExtensions.contains fileExt then .ok ([], 0, [])
  else copyStripLoop path dest env attrs

/-- Kind of a visited filesystem node, as the walk callback
distinguishes it. -/
inductive FileMode
  | regular
  | dir
  | other
deriving DecidableEq

/-- The os.FileInfo fields the walk callback consults; timestamps are
integer nanoseconds, matching the exact comparison the duration check
performs. -/
structure FileInfo where
  size : Nat
  mode : FileMode
  modTimeNs : Int
  birthTimeNs : Int

/-- The flag values and stripping configuration of one run. -/
structure Config where
  debug : Bool
  stripResourceForks : Bool
  stripResourceIgnoredExtensions : List String
  warnOnCreationTimes : Bool
  allowTextMissingExtension : Bool
  strippedDir : String

/-- External inputs of one walk-callback invocation: the walk error
argument, the attribute listing, the resource-fork and DeRez inputs, the
content-probe output, and the stripped-copy reads and writes. -/
structure EntryEnv where
  walkErr : Option String
  xattrList : Except String (List String)
  xe : XattrEnv
  probe : Except String String
  strip : StripEnv

/-- The aggregate state the walk accumulates across entries. -/
structure WalkState where
  rawScanned : Nat
  scannedFiles : Nat
  scannedDirs : Nat
  scanErrors : Nat
  strippedFilesCount : Nat
  resourceForkTypes : String → Nat
  resourcesByType : String → List String
  fileExtensions : String → Bool

/-- Findings the callback emits for one entry: errors, warns, logs. -/
def Findings := List String × List String × List String

/-- Nanoseconds in the twenty-four hours of the creation-time check. -/
def dayNs : Int := 86400000000000

/-- The creation-time warning.  The Go code renders the two time.Time
values; the model renders their nanosecond readings, which carries the
same information. -/
def creationTimeMsg (info : FileInfo) : String :=
  "Significant creation time: " ++ toString info.birthTimeNs ++ " vs. " ++
    toString info.modTimeNs

/-- Translation of the walk callback of main: count the raw visit, skip
ignored basenames and ignored paths, account a walk error as a finding,
and classify regular files and directories through checkBasename, the
attribute filter, evaluateXattrs, the optional stripped copy and the
optional creation-time check.  A panic inside a classifier propagates as
an error of the whole step. -/
def walkStep (cfg : Config) (st : WalkState) (path : String) (info : FileInfo)
    (env : EntryEnv) : Except String (WalkState × Findings) :=
  let st := { st with rawScanned := st.rawScanned + 1 }
  if isIgnoredFile (filepathBase path) then .ok (st, ([], [], []))
  else if isIgnoredPath path then .ok (st, ([], [], []))
  else
    match env.walkErr with
    | some e => .ok ({ st with scanErrors := st.scanErrors + 1 }, ([e], [], []))
    | none =>
      if info.mode = FileMode.regular ∨ info.mode = FileMode.dir then
        let st :=
          if info.mode = FileMode.regular then
            { st with
              scannedFiles := st.scannedFiles + 1,
              fileExtensions := fun k =>
                if k = strictFileExtension path then true else st.fileExtensions k }
          else { st with scannedDirs := st.scannedDirs + 1 }
        match checkBasename path (info.mode = FileMode.regular)
            cfg.allowTextMissingExtension env.probe with
        | .error e => .error e
        | .ok lw =>
          let logs := lw.1
          let warns := lw.2
          let errs : List String := match env.xattrList with
            | .error e => [e]
            | .ok _ => []
          let xattrNames : List String := match env.xattrList with
            | .error _ => []
            | .ok names => names
          let xattrNames := removeIgnoredXattrs xattrNames
          let r := evaluateXattrs path info.size xattrNames env.xe
            st.resourceForkTypes st.resourcesByType
          let st := { st with resourceForkTypes := r.1, resourcesByType := r.2.1 }
          let logs := logs ++ r.2.2.1
          let warns := warns ++ r.2.2.2
          match (if cfg.stripResourceForks then
              copyStrippedFile path xattrNames cfg.strippedDir
                cfg.stripResourceIgnoredExtensions env.strip
            else .ok ([], 0, [])) with
          | .error e => .error e
          | .ok sres =>
            let st := { st with strippedFilesCount := st.strippedFilesCount + sres.2.1 }
            let logs := logs ++ sres.1
            let warns := warns ++
              (if cfg.warnOnCreationTimes then
                (if info.modTimeNs - info.birthTimeNs > dayNs then [creationTimeMsg info]
                 else [])
               else [])
            .ok (st, (errs, warns, logs))
      else .ok (st, ([], [], []))

/-- Whether the walk-callback step completed without a panic. -/
def walkOk (r : Except String (WalkState × Findings)) : Bool :=
  match r with
  | .ok _ => true
  | .error _ => false

/-- Error findings of a completed step; none when the step panicked. -/
def errorsOf (r : Except String (WalkState × Findings)) : List String :=
  match r with
  | .ok p => p.2.1
  | .error _ => []

/-- Warning findings of a completed step; none when the step panicked. -/
def warnsOf (r : Except String (WalkState × Findings)) : List String :=
  match r with
  | .ok p => p.2.2.1
  | .error _ => []

/-! General lemmas about the embedded definitions. -/

/-- The attribute loop is the identity on its accumulators when the
resource-fork attribute is absent. -/
theorem evalXattrsLoop_no_rf (path : String) (size : Nat) (env : XattrEnv) :
    ∀ (attrs : List String), rfAttr ∉ attrs →
    ∀ (report : String → Nat) (rr : String → List String) (warns : List String),
    evalXattrsLoop path size env attrs report rr warns = (report, rr, warns) := by
  intro attrs
  induction attrs with
  | nil => intro _ report rr warns; rfl
  | cons a rest ih =>
    intro h report rr warns
    have ha : ¬ a = rfAttr := fun hc => h (hc ▸ List.mem_cons_self a rest)
    have hr : rfAttr ∉ rest := fun hc => h (List.mem_cons_of_mem a hc)
    simp only [evalXattrsLoop, if_neg ha]
    exact ih hr report rr warns

/-- The key the attribute loop touches in both aggregate maps. -/
def reportKey (path : String) : String :=
  if strictFileExtension path = "" then "(no extension)" else strictFileExtension path

/-- C1: for an entry whose filtered attribute set contains the
resource-fork attribute exactly once, a disassembly yielding no type
codes leaves both aggregate maps unchanged, and a disassembly yielding
at least one code increments the count of the normalized-extension key
by exactly one and merges the codes into that key's accumulated list
with duplicates removed. -/
theorem resource_fork_aggregate_update (path : String) (size : Nat)
    (attrs : List String) (env : XattrEnv)
    (report : String → Nat) (rr : String → List String)
    (hone : attrs.count rfAttr = 1) :
    (extractedTypes env = [] →
      (evaluateXattrs path size attrs env report rr).1 = report ∧
      (evaluateXattrs path size attrs env report rr).2.1 = rr) ∧
    (extractedTypes env ≠ [] →
      (evaluateXattrs path size attrs env report rr).1 =
        (fun k => if k = reportKey path then report k + 1 else report k) ∧
      (evaluateXattrs path size attrs env report rr).2.1 =
        (fun k => if k = reportKey path then uniqueStrings (rr k ++ extractedTypes env)
          else rr k)) := by
  have main : ∀ (attrs : List String), attrs.count rfAttr = 1 →
      ∀ (report : String → Nat) (rr : String → List String) (warns : List String),
      (extractedTypes env = [] →
        (evalXattrsLoop path size env attrs report rr warns).1 = report ∧
        (evalXattrsLoop path size env attrs report rr warns).2.1 = rr) ∧
      (extractedTypes env ≠ [] →
        (evalXattrsLoop path size env attrs report rr warns).1 =
          (fun k => if k = reportKey path then report k + 1 else report k) ∧
        (evalXattrsLoop path size env attrs report rr warns).2.1 =
          (fun k => if k = reportKey path then uniqueStrings (rr k ++ extractedTypes env)
            else rr k)) := by
    intro attrs
    induction attrs with
    | nil => intro h; simp [List.count_nil] at h
    | cons a rest ih =>
      intro h report rr warns
      by_cases ha : a = rfAttr
      · have hz : rest.count rfAttr = 0 := by
          have := List.count_cons rfAttr a rest
          rw [h] at this
          simp [ha] at this
          omega
        have hnot : rfAttr ∉ rest := by
          intro hc
          have := List.count_pos_iff.mpr hc
          omega
        simp only [evalXattrsLoop, if_pos ha]
        by_cases hte : extractedTypes env = []
        · have hb : (extractedTypes env).isEmpty = true := by simp [hte]
          rw [hb, if_pos rfl]
          rw [evalXattrsLoop_no_rf path size env rest hnot]
          constructor
          · intro _; exact ⟨rfl, rfl⟩
          · intro hne; exact absurd hte hne
        · have hb : (extractedTypes env).isEmpty = false := by
            cases hx : (extractedTypes env).isEmpty
            · rfl
            · exact absurd (List.isEmpty_iff.mp hx) hte
          rw [hb, if_neg Bool.false_ne_true]
          rw [evalXattrsLoop_no_rf path size env rest hnot]
          constructor
          · intro he; exact absurd he hte
          · intro _; exact ⟨rfl, rfl⟩
      · have hr : rest.count rfAttr = 1 := by
          have := List.count_cons rfAttr a rest
          rw [h] at this
          have hne : (a == rfAttr) = false := by
            simp [ha]
          simp [hne] at this
          omega
        simp only [evalXattrsLoop, if_neg ha]
        exact ih hr report rr warns
  exact main attrs hone report rr []

/-- Witness for C1 at a concrete entry carrying one resource fork whose
disassembly yields one type code. -/
theorem resource_fork_aggregate_update_witness :
    (evaluateXattrs ("/a/b.doc") 7 ["com.custom.tag", rfAttr]
        ⟨Except.ok [5], Except.ok ("data " ++ String.singleton sq ++ "ABCD" ++ String.singleton sq)⟩
        (fun _ => 0) (fun _ => [])).1 =
      (fun k => if k = reportKey ("/a/b.doc") then (fun _ => (0 : Nat)) k + 1
        else (fun _ => (0 : Nat)) k) :=
  ((resource_fork_aggregate_update ("/a/b.doc") 7 ["com.custom.tag", rfAttr]
      ⟨Except.ok [5], Except.ok ("data " ++ String.singleton sq ++ "ABCD" ++ String.singleton sq)⟩
      (fun _ => 0) (fun _ => []) (by decide)).2 (by decide)).1

/-- C4: a regular file named README gets no warning at all, while a
regular file named README.txt. gets exactly the trailing-period warning
followed by the missing-extension warning. -/
theorem readme_extension_policy (probe : Except String String) :
    checkBasename ("README") true false probe = Except.ok ([], []) ∧
    checkBasename ("README.txt.") true false probe =
      Except.ok ([], [trailingCharMsg ('.'), missingExtMsg]) :=
  ⟨rfl, rfl⟩

/-- C7: the attribute filter keeps exactly the attribute names outside
the static ignore list, in input order, and on the example list holding
Finder info and a custom tag it returns exactly the custom tag. -/
theorem attribute_filter_spec (attrs : List String) :
    removeIgnoredXattrs attrs =
      attrs.filter (fun a => decide (a ∉ defaultIgnoredXattrs)) ∧
    removeIgnoredXattrs ["com.apple.FinderInfo", "com.custom.tag"] =
      ["com.custom.tag"] := by
  constructor
  · induction attrs with
    | nil => rfl
    | cons a rest ih =>
      cases hc : defaultIgnoredXattrs.contains a with
      | true =>
        have hmem : a ∈ defaultIgnoredXattrs := List.elem_iff.mp hc
        simp [removeIgnoredXattrs, hc, hmem, ih]
      | false =>
        have hmem : a ∉ defaultIgnoredXattrs := by simpa using hc
        simp [removeIgnoredXattrs, hc, hmem, ih]
  · decide

/-- Elements of the trailing-character warning block come from the
static trailing-character list. -/
theorem trailing_tail_prop (lastR : Char) :
    ∀ w ∈ (illegalTrailingChars.filter (fun c => lastR == c)).map trailingCharMsg,
      ∃ c ∈ illegalTrailingChars, w = trailingCharMsg c := by
  intro w hw
  obtain ⟨c, hc, rfl⟩ := List.mem_map.mp hw
  exact ⟨c, (List.mem_filter.mp hc).1, rfl⟩

/-- A completed basename check returns no logs, and its warning list is
the illegal-character block followed by a tail of trailing-character
warnings and possibly the missing-extension warning. -/
theorem checkBasename_ok_decomp (path : String) (isReg allowText : Bool)
    (probe : Except String String) (lw : List String × List String)
    (hok : checkBasename path isReg allowText probe = Except.ok lw) :
    lw.1 = [] ∧ ∃ tail,
      lw.2 = (illegalPathnameChars.filter
          (fun c => containsChar (filepathBase path) c)).map illegalCharMsg ++ tail ∧
      ∀ w ∈ tail, (∃ c ∈ illegalTrailingChars, w = trailingCharMsg c) ∨
        w = missingExtMsg := by
  simp only [checkBasename] at hok
  split at hok
  · split at hok
    · cases hok
      exact ⟨rfl, _, rfl, fun w hw => Or.inl (trailing_tail_prop _ w hw)⟩
    · split at hok
      · split at hok
        · exact absurd hok (by simp)
        · cases hok
          exact ⟨rfl, _, rfl, fun w hw => Or.inl (trailing_tail_prop _ w hw)⟩
        · cases hok
          refine ⟨rfl, _, List.append_assoc _ _ _, ?_⟩
          intro w hw
          rcases List.mem_append.mp hw with hw1 | hw2
          · exact Or.inl (trailing_tail_prop _ w hw1)
          · exact Or.inr (List.mem_singleton.mp hw2)
      · cases hok
        refine ⟨rfl, _, List.append_assoc _ _ _, ?_⟩
        intro w hw
        rcases List.mem_append.mp hw with hw1 | hw2
        · exact Or.inl (trailing_tail_prop _ w hw1)
        · exact Or.inr (List.mem_singleton.mp hw2)
  · cases hok
    exact ⟨rfl, _, rfl, fun w hw => Or.inl (trailing_tail_prop _ w hw)⟩

/-- C8: among the warnings of a completed basename check, those equal to
an illegal-character warning are exactly one warning per character of
the static illegal set occurring in the basename, in the order of that
set; a basename containing none of the characters yields none. -/
theorem illegal_char_warnings (path : String) (isReg allowText : Bool)
    (probe : Except String String) (lw : List String × List String)
    (hok : checkBasename path isReg allowText probe = Except.ok lw) :
    lw.2.filter (fun w => illegalPathnameChars.any (fun c => w == illegalCharMsg c)) =
      (illegalPathnameChars.filter
        (fun c => containsChar (filepathBase path) c)).map illegalCharMsg := by
  obtain ⟨-, tail, heq, hprop⟩ := checkBasename_ok_decomp path isReg allowText probe lw hok
  rw [heq, List.filter_append]
  have h1 : ((illegalPathnameChars.filter
        (fun c => containsChar (filepathBase path) c)).map illegalCharMsg).filter
        (fun w => illegalPathnameChars.any (fun c => w == illegalCharMsg c)) =
      (illegalPathnameChars.filter
        (fun c => containsChar (filepathBase path) c)).map illegalCharMsg := by
    apply List.filter_eq_self.mpr
    intro w hw
    obtain ⟨c, hc, rfl⟩ := List.mem_map.mp hw
    have hcmem : c ∈ illegalPathnameChars := (List.mem_filter.mp hc).1
    exact List.any_eq_true.mpr ⟨c, hcmem, by simp⟩
  have h2 : tail.filter
      (fun w => illegalPathnameChars.any (fun c => w == illegalCharMsg c)) = [] := by
    apply List.filter_eq_nil_iff.mpr
    intro w hw
    rcases hprop w hw with ⟨c, hcm, rfl⟩ | rfl
    · have : c = '.' ∨ c = ' ' := by simpa [illegalTrailingChars] using hcm
      rcases this with rfl | rfl <;> decide
    · decide
  rw [h1, h2, List.append_nil]

/-- Witness for C8 at a concrete path whose basename contains a colon
and a backslash. -/
theorem illegal_char_warnings_witness :
    (([], [illegalCharMsg (':'), illegalCharMsg ('\\'), missingExtMsg]) :
        List String × List String).2.filter
        (fun w => illegalPathnameChars.any (fun c => w == illegalCharMsg c)) =
      (illegalPathnameChars.filter
        (fun c => containsChar (filepathBase ("/d/a:b\\x")) c)).map illegalCharMsg :=
  illegal_char_warnings ("/d/a:b\\x") true false (Except.ok "") _ rfl

/-- Warnings accumulated before the attribute loop survive it. -/
theorem evalXattrsLoop_warns_mono (path : String) (size : Nat) (env : XattrEnv) :
    ∀ (attrs : List String) (report : String → Nat) (rr : String → List String)
      (warns : List String) (w : String), w ∈ warns →
      w ∈ (evalXattrsLoop path size env attrs report rr warns).2.2 := by
  intro attrs
  induction attrs with
  | nil => intro report rr warns w hw; exact hw
  | cons a rest ih =>
    intro report rr warns w hw
    by_cases ha : a = rfAttr
    · simp only [evalXattrsLoop, if_pos ha]
      split
      · exact ih _ _ _ w (List.mem_append_left _ (List.mem_append_left _ hw))
      · exact ih _ _ _ w
          (List.mem_append_left _ (List.mem_append_left _ (List.mem_append_left _ hw)))
    · simp only [evalXattrsLoop, if_neg ha]
      exact ih _ _ _ w hw

/-- C2 counterexample: an entry whose attribute set carries the resource
fork, whose data fork is empty and whose fork bytes are non-empty, but
whose disassembly yields no type codes, gets no empty-data-fork warning
at all. -/
theorem data_fork_warning_counterexample :
    rfAttr ∈ [rfAttr] ∧
    (XattrEnv.mk (Except.ok [1, 2, 3]) (Except.ok "")).rsrc = Except.ok [1, 2, 3] ∧
    ([1, 2, 3] : List Nat) ≠ [] ∧
    (evaluateXattrs ("/tmp/z.doc") 0 [rfAttr] ⟨Except.ok [1, 2, 3], Except.ok ""⟩
      (fun _ => 0) (fun _ => [])).2.2.2 = [] :=
  ⟨by decide, rfl, by decide, rfl⟩

/-- C2 as amended: when additionally the disassembly yields at least one
type code, the entry with an empty data fork and a readable resource
fork gets the empty-data-fork warning carrying the fork byte length. -/
theorem data_fork_warning_amended (path : String) (attrs : List String) (env : XattrEnv)
    (report : String → Nat) (rr : String → List String) (bs : List Nat)
    (hmem : rfAttr ∈ attrs) (hrsrc : env.rsrc = Except.ok bs) (hbs : bs ≠ [])
    (htypes : extractedTypes env ≠ []) :
    dataForkEmptyMsg bs.length ∈ (evaluateXattrs path 0 attrs env report rr).2.2.2 := by
  show dataForkEmptyMsg bs.length ∈ (evalXattrsLoop path 0 env attrs report rr []).2.2
  have main : ∀ (attrs : List String), rfAttr ∈ attrs →
      ∀ (report : String → Nat) (rr : String → List String) (warns : List String),
      dataForkEmptyMsg bs.length ∈ (evalXattrsLoop path 0 env attrs report rr warns).2.2 := by
    intro attrs
    induction attrs with
    | nil => intro h; cases h
    | cons a rest ih =>
      intro hmem2 report rr warns
      by_cases ha : a = rfAttr
      · simp only [evalXattrsLoop, if_pos ha]
        have hb : (extractedTypes env).isEmpty = false := by
          cases hx : (extractedTypes env).isEmpty
          · rfl
          · exact absurd (List.isEmpty_iff.mp hx) htypes
        rw [hb, if_neg Bool.false_ne_true]
        apply evalXattrsLoop_warns_mono
        have hlen : rsrcLen env = bs.length := by
          simp [rsrcLen, hrsrc]
        rw [hlen]
        refine List.mem_append_right _ ?_
        simp
      · have hrest : rfAttr ∈ rest := by
          rcases List.mem_cons.mp hmem2 with h1 | h2
          · exact absurd h1.symm ha
          · exact h2
        simp only [evalXattrsLoop, if_neg ha]
        exact ih hrest report rr warns
  exact main attrs hmem report rr []

/-- Witness for the amended C2 at a concrete entry whose disassembly
yields one type code. -/
theorem data_fork_warning_amended_witness :
    dataForkEmptyMsg ([5, 6] : List Nat).length ∈
      (evaluateXattrs ("/tmp/z.doc") 0 [rfAttr]
        ⟨Except.ok [5, 6],
          Except.ok ("data " ++ String.singleton sq ++ "ABCD" ++ String.singleton sq)⟩
        (fun _ => 0) (fun _ => [])).2.2.2 :=
  data_fork_warning_amended ("/tmp/z.doc") [rfAttr]
    ⟨Except.ok [5, 6],
      Except.ok ("data " ++ String.singleton sq ++ "ABCD" ++ String.singleton sq)⟩
    (fun _ => 0) (fun _ => []) [5, 6] (by decide) rfl (by decide) (by decide)

/-- The stripping loop performs the single copy when a resource-fork
attribute is present with readable non-empty bytes and both the
data-fork read and the destination write succeed. -/
theorem copyStripLoop_rf (path dest : String) (env : StripEnv) (bs data : List Nat)
    (hrsrc : env.rsrc = Except.ok bs) (hbs : bs ≠ [])
    (hread : env.readData = Except.ok data) (hwrite : env.writeRes = Except.ok ()) :
    ∀ (attrs : List String), rfAttr ∈ attrs →
    copyStripLoop path dest env attrs =
      Except.ok (["Copied data-only version to " ++ filepathJoin dest (flattenPath path)],
        1, [(filepathJoin dest (flattenPath path), data)]) := by
  intro attrs
  induction attrs with
  | nil => intro h; cases h
  | cons a rest ih =>
    intro hmem
    by_cases ha : a = rfAttr
    · simp only [copyStripLoop, if_pos ha, hrsrc]
      have hlen : ¬ bs.length = 0 := fun h => hbs (List.eq_nil_of_length_eq_zero h)
      rw [if_neg hlen]
      simp [hread, hwrite]
    · have hrest : rfAttr ∈ rest := by
        rcases List.mem_cons.mp hmem with h1 | h2
        · exact absurd h1.symm ha
        · exact h2
      simp only [copyStripLoop, if_neg ha]
      exact ih hrest

/-- C5: the stripped-copy writer does nothing for a file whose strict
extension is excluded, whatever its attributes; otherwise an entry with
a non-empty readable resource fork gets exactly one copy of its
data-fork bytes under the flattened destination name, reported with
count one and a message naming the destination. -/
theorem stripped_copy_spec (path dest : String) (attrs excl : List String)
    (env : StripEnv) :
    (strictFileExtension path ∈ excl →
      copyStrippedFile path attrs dest excl env = Except.ok ([], 0, [])) ∧
    (∀ (bs data : List Nat), strictFileExtension path ∉ excl → rfAttr ∈ attrs →
      env.rsrc = Except.ok bs → bs ≠ [] →
      env.readData = Except.ok data → env.writeRes = Except.ok () →
      copyStrippedFile path attrs dest excl env =
        Except.ok (["Copied data-only version to " ++ filepathJoin dest (flattenPath path)],
          1, [(filepathJoin dest (flattenPath path), data)])) := by
  constructor
  · intro hmem
    have hc : excl.contains (strictFileExtension path) = true := List.elem_iff.mpr hmem
    simp only [copyStrippedFile]
    rw [if_pos hc]
  · intro bs data hnot hrf hrsrc hbs hread hwrite
    have hc : excl.contains (strictFileExtension path) = false := by
      cases h : excl.contains (strictFileExtension path)
      · rfl
      · exact absurd (List.elem_iff.mp h) hnot
    simp only [copyStrippedFile, hc, Bool.false_eq_true, if_false]
    exact copyStripLoop_rf path dest env bs data hrsrc hbs hread hwrite attrs hrf

/-- Witness for C5 at a concrete non-excluded file with a resource fork. -/
theorem stripped_copy_spec_witness :
    copyStrippedFile ("/a/b.doc") [rfAttr] ("/dest") [".png"]
        ⟨Except.ok [1], Except.ok [7, 8], Except.ok ()⟩ =
      Except.ok (["Copied data-only version to " ++
          filepathJoin ("/dest") (flattenPath ("/a/b.doc"))],
        1, [(filepathJoin ("/dest") (flattenPath ("/a/b.doc")), [7, 8])]) :=
  (stripped_copy_spec ("/a/b.doc") ("/dest") [rfAttr] [".png"]
      ⟨Except.ok [1], Except.ok [7, 8], Except.ok ()⟩).2 [1] [7, 8]
    (by decide) (by decide) rfl (by decide) rfl rfl

/-- C6: an entry whose path has a component in the static ignored-path
list is skipped before classification: the step only counts the raw
visit and produces no findings, whatever the entry's kind, attributes or
environment. -/
theorem ignored_path_never_classified (cfg : Config) (st : WalkState) (path : String)
    (info : FileInfo) (env : EntryEnv)
    (h : ∃ part ∈ splitChar ('/') path, part ∈ defaultIgnoredPaths) :
    walkStep cfg st path info env =
      Except.ok ({ st with rawScanned := st.rawScanned + 1 }, ([], [], [])) := by
  have hig : isIgnoredPath path = true := by
    obtain ⟨part, hp, hmem⟩ := h
    exact List.any_eq_true.mpr ⟨part, hp, List.elem_iff.mpr hmem⟩
  simp only [walkStep]
  by_cases hif : isIgnoredFile (filepathBase path) = true
  · rw [if_pos hif]
  · rw [if_neg hif, if_pos hig]

/-- Witness for C6 at a concrete path under a version-control
directory. -/
theorem ignored_path_never_classified_witness :
    walkStep ⟨false, false, [], false, false, ""⟩
        ⟨0, 0, 0, 0, 0, fun _ => 0, fun _ => [], fun _ => false⟩
        ("/a/.git/b") ⟨1, FileMode.regular, 0, 0⟩
        ⟨none, Except.ok [], ⟨Except.ok [], Except.ok ""⟩, Except.ok "",
          ⟨Except.ok [], Except.ok [], Except.ok ()⟩⟩ =
      Except.ok ((⟨1, 0, 0, 0, 0, fun _ => 0, fun _ => [], fun _ => false⟩ : WalkState),
        ([], [], [])) :=
  ignored_path_never_classified _ _ _ _ _ ⟨".git", by decide, by decide⟩

/-- C3 counterexample: a content-probe failure on a regular file without
an extension, with the plain-text fallback enabled, panics and aborts
the whole walk step instead of being captured as a finding. -/
theorem classification_panic_counterexample :
    (EntryEnv.mk none (Except.ok []) ⟨Except.ok [], Except.ok ""⟩
        (Except.error "probe failed")
        ⟨Except.ok [], Except.ok [], Except.ok ()⟩).probe = Except.error "probe failed" ∧
    walkStep ⟨false, false, [], false, true, ""⟩
        ⟨0, 0, 0, 0, 0, fun _ => 0, fun _ => [], fun _ => false⟩
        ("/tmp/noext") ⟨5, FileMode.regular, 0, 0⟩
        ⟨none, Except.ok [], ⟨Except.ok [], Except.ok ""⟩, Except.error "probe failed",
          ⟨Except.ok [], Except.ok [], Except.ok ()⟩⟩ =
      Except.error "probe failed" :=
  ⟨rfl, rfl⟩

/-- With the plain-text fallback disabled the basename check never
panics. -/
theorem checkBasename_ok_of_not_allowText (path : String) (isReg : Bool)
    (probe : Except String String) :
    ∃ lw, checkBasename path isReg false probe = Except.ok lw := by
  simp only [checkBasename, Bool.false_eq_true, if_false]
  split
  · split
    · exact ⟨_, rfl⟩
    · exact ⟨_, rfl⟩
  · exact ⟨_, rfl⟩

/-- A failed DeRez invocation leaves its error message among the loop's
warnings whenever the resource-fork attribute is present. -/
theorem evalXattrsLoop_derez_err (path : String) (size : Nat) (env : XattrEnv)
    (e : String) (hD : env.derezOut = Except.error e) :
    ∀ (attrs : List String), rfAttr ∈ attrs →
    ∀ (report : String → Nat) (rr : String → List String) (warns : List String),
    ("Error: " ++ e) ∈ (evalXattrsLoop path size env attrs report rr warns).2.2 := by
  have hex : extractResourceTypes env.derezOut = Except.error e := by
    rw [hD]
    rfl
  have hty : extractedTypes env = [] := by simp [extractedTypes, hex]
  intro attrs
  induction attrs with
  | nil => intro h; cases h
  | cons a rest ih =>
    intro hmem report rr warns
    by_cases ha : a = rfAttr
    · simp only [evalXattrsLoop, if_pos ha]
      have hb : (extractedTypes env).isEmpty = true := by rw [hty]; rfl
      rw [hb, if_pos rfl]
      apply evalXattrsLoop_warns_mono
      rw [hex]
      exact List.mem_append_right _ (List.mem_singleton.mpr rfl)
    · have hrest : rfAttr ∈ rest := by
        rcases List.mem_cons.mp hmem with h1 | h2
        · exact absurd h1.symm ha
        · exact h2
      simp only [evalXattrsLoop, if_neg ha]
      exact ih hrest report rr warns

/-- A failed resource-fork attribute read leaves its error message among
the loop's warnings whenever the resource-fork attribute is present. -/
theorem evalXattrsLoop_rsrc_err (path : String) (size : Nat) (env : XattrEnv)
    (e : String) (hR : env.rsrc = Except.error e) :
    ∀ (attrs : List String), rfAttr ∈ attrs →
    ∀ (report : String → Nat) (rr : String → List String) (warns : List String),
    ("Error: " ++ e) ∈ (evalXattrsLoop path size env attrs report rr warns).2.2 := by
  intro attrs
  induction attrs with
  | nil => intro h; cases h
  | cons a rest ih =>
    intro hmem report rr warns
    by_cases ha : a = rfAttr
    · simp only [evalXattrsLoop, if_pos ha]
      split
      · apply evalXattrsLoop_warns_mono
        apply List.mem_append_left
        rw [hR]
        exact List.mem_append_right _ (List.mem_singleton.mpr rfl)
      · apply evalXattrsLoop_warns_mono
        apply List.mem_append_left
        apply List.mem_append_left
        rw [hR]
        exact List.mem_append_right _ (List.mem_singleton.mpr rfl)
    · have hrest : rfAttr ∈ rest := by
        rcases List.mem_cons.mp hmem with h1 | h2
        · exact absurd h1.symm ha
        · exact h2
      simp only [evalXattrsLoop, if_neg ha]
      exact ih hrest report rr warns

/-- C3 as amended: with the plain-text fallback and stripping disabled,
no per-entry failure aborts the step, and on a classified entry an
attribute-listing failure becomes an error finding while resource-fork
read failures and disassembler failures become warning findings. -/
theorem per_entry_failures_isolated (cfg : Config) (st : WalkState) (path : String)
    (info : FileInfo) (env : EntryEnv)
    (hText : cfg.allowTextMissingExtension = false)
    (hStrip : cfg.stripResourceForks = false) :
    walkOk (walkStep cfg st path info env) = true ∧
    (isIgnoredFile (filepathBase path) = false → isIgnoredPath path = false →
      env.walkErr = none → (info.mode = FileMode.regular ∨ info.mode = FileMode.dir) →
      (∀ e, env.xattrList = Except.error e →
        e ∈ errorsOf (walkStep cfg st path info env)) ∧
      (∀ e names, env.xattrList = Except.ok names →
        rfAttr ∈ removeIgnoredXattrs names → env.xe.derezOut = Except.error e →
        ("Error: " ++ e) ∈ warnsOf (walkStep cfg st path info env)) ∧
      (∀ e names, env.xattrList = Except.ok names →
        rfAttr ∈ removeIgnoredXattrs names → env.xe.rsrc = Except.error e →
        ("Error: " ++ e) ∈ warnsOf (walkStep cfg st path info env))) := by
  constructor
  · simp only [walkStep]
    by_cases hIF : isIgnoredFile (filepathBase path) = true
    · rw [if_pos hIF]; rfl
    · rw [if_neg hIF]
      by_cases hIP : isIgnoredPath path = true
      · rw [if_pos hIP]; rfl
      · rw [if_neg hIP]
        cases hE : env.walkErr with
        | some e => rfl
        | none =>
          by_cases hM : info.mode = FileMode.regular ∨ info.mode = FileMode.dir
          · rw [if_pos hM, hText]
            obtain ⟨lw, hcb⟩ :=
              checkBasename_ok_of_not_allowText path
                (decide (info.mode = FileMode.regular)) env.probe
            rw [hcb, hStrip]
            rfl
          · rw [if_neg hM]; rfl
  · intro hIF hIP hE hM
    have hIF2 : ¬ (isIgnoredFile (filepathBase path) = true) := by simp [hIF]
    have hIP2 : ¬ (isIgnoredPath path = true) := by simp [hIP]
    obtain ⟨lw, hcb⟩ :=
      checkBasename_ok_of_not_allowText path
        (decide (info.mode = FileMode.regular)) env.probe
    refine ⟨?_, ?_, ?_⟩
    · intro e hx
      simp only [walkStep, if_neg hIF2, if_neg hIP2, hE, if_pos hM, hText, hcb, hStrip]
      simp only [errorsOf, hx]
      exact List.mem_singleton.mpr rfl
    · intro e names hx hrf hD
      simp only [walkStep, if_neg hIF2, if_neg hIP2, hE, if_pos hM, hText, hcb, hStrip]
      simp only [warnsOf, hx, evaluateXattrs]
      refine List.mem_append_left _ (List.mem_append_right _ ?_)
      exact evalXattrsLoop_derez_err path info.size env.xe e hD
        (removeIgnoredXattrs names) hrf _ _ []
    · intro e names hx hrf hR
      simp only [walkStep, if_neg hIF2, if_neg hIP2, hE, if_pos hM, hText, hcb, hStrip]
      simp only [warnsOf, hx, evaluateXattrs]
      refine List.mem_append_left _ (List.mem_append_right _ ?_)
      exact evalXattrsLoop_rsrc_err path info.size env.xe e hR
        (removeIgnoredXattrs names) hrf _ _ []

/-- Witness for the amended C3 at a concrete entry whose attribute
listing fails. -/
theorem per_entry_failures_isolated_witness :
    walkOk (walkStep ⟨false, false, [], false, false, ""⟩
      ⟨0, 0, 0, 0, 0, fun _ => 0, fun _ => [], fun _ => false⟩
      ("/tmp/x") ⟨3, FileMode.regular, 0, 0⟩
      ⟨none, Except.error "xattr boom", ⟨Except.ok [], Except.ok ""⟩, Except.ok "",
        ⟨Except.ok [], Except.ok [], Except.ok ()⟩⟩) = true :=
  (per_entry_failures_isolated ⟨false, false, [], false, false, ""⟩
    ⟨0, 0, 0, 0, 0, fun _ => 0, fun _ => [], fun _ => false⟩
    ("/tmp/x") ⟨3, FileMode.regular, 0, 0⟩
    ⟨none, Except.error "xattr boom", ⟨Except.ok [], Except.ok ""⟩, Except.ok "",
      ⟨Except.ok [], Except.ok [], Except.ok ()⟩⟩ rfl rfl).1

/-- First character of a warning message, used to tell the warning
families apart. -/
def headCh (s : String) : Option Char := s.data.head?

/-- Characters of an appended string are the appended character lists. -/
theorem data_append (s t : String) : (s ++ t).data = s.data ++ t.data := by
  cases s
  cases t
  rfl

/-- The first character of an append is the first character of a
non-empty left part. -/
theorem headCh_append (s t : String) (c : Char) (h : headCh s = some c) :
    headCh (s ++ t) = some c := by
  unfold headCh at h ⊢
  rw [data_append, List.head?_append, h]
  rfl

/-- Illegal-character warnings start with the letter N. -/
theorem illegalCharMsg_headCh (c : Char) : headCh (illegalCharMsg c) = some 'N' :=
  headCh_append _ _ _ (headCh_append _ _ _ (headCh_append _ _ _ rfl))

/-- Trailing-character warnings start with the letter N. -/
theorem trailingCharMsg_headCh (c : Char) : headCh (trailingCharMsg c) = some 'N' :=
  headCh_append _ _ _ (headCh_append _ _ _ (headCh_append _ _ _ rfl))

/-- Attribute-error warnings start with the letter E. -/
theorem errMsg_headCh (e : String) : headCh ("Error: " ++ e) = some 'E' :=
  headCh_append _ _ _ rfl

/-- Empty-data-fork warnings start with the letter D. -/
theorem dataForkEmptyMsg_headCh (n : Nat) : headCh (dataForkEmptyMsg n) = some 'D' :=
  headCh_append _ _ _ (headCh_append _ _ _ rfl)

/-- Creation-time warnings start with the letter S. -/
theorem creationTimeMsg_headCh (info : FileInfo) :
    headCh (creationTimeMsg info) = some 'S' :=
  headCh_append _ _ _ (headCh_append _ _ _ (headCh_append _ _ _ rfl))

/-- The resource-fork read warning block never starts with the letter S. -/
theorem rsrcWarn_not_S (env : XattrEnv) (w : String)
    (hw : w ∈ (match env.rsrc with
      | Except.error e => ["Error: " ++ e]
      | Except.ok _ => ([] : List String))) :
    headCh w ≠ some 'S' := by
  cases hre : env.rsrc with
  | error e =>
    rw [hre] at hw
    simp only [List.mem_singleton] at hw
    rw [hw, errMsg_headCh]
    simp
  | ok bs =>
    rw [hre] at hw
    simp at hw

/-- The disassembler warning block never starts with the letter S. -/
theorem derezWarn_not_S (env : XattrEnv) (w : String)
    (hw : w ∈ (match extractResourceTypes env.derezOut with
      | Except.error e => ["Error: " ++ e]
      | Except.ok _ => ([] : List String))) :
    headCh w ≠ some 'S' := by
  cases hde : extractResourceTypes env.derezOut with
  | error e =>
    rw [hde] at hw
    simp only [List.mem_singleton] at hw
    rw [hw, errMsg_headCh]
    simp
  | ok ts =>
    rw [hde] at hw
    simp at hw

/-- No warning of the attribute loop starts with the letter S when none
of the incoming warnings does. -/
theorem evalXattrsLoop_warns_not_S (path : String) (size : Nat) (env : XattrEnv) :
    ∀ (attrs : List String) (report : String → Nat) (rr : String → List String)
      (warns : List String), (∀ w ∈ warns, headCh w ≠ some 'S') →
      ∀ w ∈ (evalXattrsLoop path size env attrs report rr warns).2.2,
        headCh w ≠ some 'S' := by
  intro attrs
  induction attrs with
  | nil => intro report rr warns h w hw; exact h w hw
  | cons a rest ih =>
    intro report rr warns h w hw
    by_cases ha : a = rfAttr
    · simp only [evalXattrsLoop, if_pos ha] at hw
      have hext : ∀ w2 ∈ ((warns ++ (match env.rsrc with
          | Except.error e => ["Error: " ++ e]
          | Except.ok _ => ([] : List String))) ++ (match extractResourceTypes env.derezOut with
          | Except.error e => ["Error: " ++ e]
          | Except.ok _ => ([] : List String))), headCh w2 ≠ some 'S' := by
        intro w2 hw2
        rcases List.mem_append.mp hw2 with h1 | h2
        · rcases List.mem_append.mp h1 with h3 | h4
          · exact h w2 h3
          · exact rsrcWarn_not_S env w2 h4
        · exact derezWarn_not_S env w2 h2
      revert hw
      split
      · intro hw
        exact ih _ _ _ hext w hw
      · intro hw
        refine ih _ _ _ ?_ w hw
        intro w2 hw2
        rcases List.mem_append.mp hw2 with h1 | h2
        · exact hext w2 h1
        · by_cases hs : size = 0
          · rw [if_pos hs] at h2
            simp only [List.mem_singleton] at h2
            rw [h2, dataForkEmptyMsg_headCh]
            simp
          · rw [if_neg hs] at h2
            simp at h2
    · simp only [evalXattrsLoop, if_neg ha] at hw
      exact ih _ _ _ h w hw

/-- No warning of a completed basename check starts with the letter S. -/
theorem checkBasename_warns_not_S (path : String) (isReg allowText : Bool)
    (probe : Except String String) (lw : List String × List String)
    (hok : checkBasename path isReg allowText probe = Except.ok lw) :
    ∀ w ∈ lw.2, headCh w ≠ some 'S' := by
  obtain ⟨-, tail, heq, hprop⟩ := checkBasename_ok_decomp path isReg allowText probe lw hok
  rw [heq]
  intro w hw
  rcases List.mem_append.mp hw with h1 | h2
  · obtain ⟨c, hc, rfl⟩ := List.mem_map.mp h1
    rw [illegalCharMsg_headCh]
    simp
  · rcases hprop w h2 with ⟨c, -, rfl⟩ | rfl
    · rw [trailingCharMsg_headCh]
      simp
    · simp [missingExtMsg, headCh]

/-- The warnings of evaluateXattrs are the warnings of its attribute
loop started from none. -/
theorem evaluateXattrs_warns (path : String) (size : Nat) (attrs : List String)
    (env : XattrEnv) (report : String → Nat) (rr : String → List String) :
    (evaluateXattrs path size attrs env report rr).2.2.2 =
      (evalXattrsLoop path size env attrs report rr []).2.2 := rfl

/-- C9 counterexample: with the creation-time check enabled, an entry
whose creation time is a hundred hours later than its modification time
gets no warning at all, though the two differ by more than twenty-four
hours. -/
theorem creation_time_warning_counterexample :
    (Config.mk false false [] true false "").warnOnCreationTimes = true ∧
    ((360000000000000 : Int) - 0 > dayNs) ∧
    warnsOf (walkStep ⟨false, false, [], true, false, ""⟩
      ⟨0, 0, 0, 0, 0, fun _ => 0, fun _ => [], fun _ => false⟩
      ("/a/b.txt") ⟨1, FileMode.regular, 0, 360000000000000⟩
      ⟨none, Except.ok [], ⟨Except.ok [], Except.ok ""⟩, Except.ok "",
        ⟨Except.ok [], Except.ok [], Except.ok ()⟩⟩) = [] :=
  ⟨rfl, by decide, rfl⟩

/-- C9 as amended: on a classified entry that completes, with the check
enabled, the creation-time warning is emitted exactly when the
modification time exceeds the creation time by more than twenty-four
hours; a creation time far later than the modification time gets no
warning. -/
theorem creation_time_warning_amended (cfg : Config) (st : WalkState) (path : String)
    (info : FileInfo) (env : EntryEnv)
    (hW : cfg.warnOnCreationTimes = true)
    (hIF : isIgnoredFile (filepathBase path) = false)
    (hIP : isIgnoredPath path = false)
    (hE : env.walkErr = none)
    (hM : info.mode = FileMode.regular ∨ info.mode = FileMode.dir)
    (hOk : walkOk (walkStep cfg st path info env) = true) :
    creationTimeMsg info ∈ warnsOf (walkStep cfg st path info env) ↔
      info.modTimeNs - info.birthTimeNs > dayNs := by
  have hIF2 : ¬ (isIgnoredFile (filepathBase path) = true) := by simp [hIF]
  have hIP2 : ¬ (isIgnoredPath path = true) := by simp [hIP]
  cases hcb : checkBasename path (decide (info.mode = FileMode.regular))
      cfg.allowTextMissingExtension env.probe with
  | error e =>
    exfalso
    simp only [walkStep, if_neg hIF2, if_neg hIP2, hE, if_pos hM, hcb, walkOk] at hOk
    exact Bool.false_ne_true hOk
  | ok lw =>
    cases hbig : (if cfg.stripResourceForks then
        copyStrippedFile path (removeIgnoredXattrs (match env.xattrList with
          | Except.error _ => []
          | Except.ok names => names)) cfg.strippedDir
          cfg.stripResourceIgnoredExtensions env.strip
      else Except.ok ([], 0, [])) with
    | error e3 =>
      exfalso
      simp only [walkStep, if_neg hIF2, if_neg hIP2, hE, if_pos hM, hcb, hbig,
        walkOk] at hOk
      exact Bool.false_ne_true hOk
    | ok sres =>
      simp only [walkStep, if_neg hIF2, if_neg hIP2, hE, if_pos hM, hcb, hbig, warnsOf]
      simp only [hW, eq_self_iff_true, if_true]
      constructor
      · intro hmem
        by_contra hnc
        rw [if_neg hnc, List.append_nil] at hmem
        rcases List.mem_append.mp hmem with h1 | h2
        · exact checkBasename_warns_not_S path _ _ _ lw hcb _ h1
            (creationTimeMsg_headCh info)
        · rw [evaluateXattrs_warns] at h2
          exact evalXattrsLoop_warns_not_S path info.size env.xe _ _ _ []
            (fun w hw => absurd hw (List.not_mem_nil w)) _ h2
            (creationTimeMsg_headCh info)
      · intro hgt
        rw [if_pos hgt]
        exact List.mem_append_right _ (List.mem_singleton.mpr rfl)

/-- Witness for the amended C9 at a concrete entry modified two days
after creation. -/
theorem creation_time_warning_amended_witness :
    (creationTimeMsg ⟨1, FileMode.regular, 172800000000000, 0⟩ ∈
      warnsOf (walkStep ⟨false, false, [], true, false, ""⟩
        ⟨0, 0, 0, 0, 0, fun _ => 0, fun _ => [], fun _ => false⟩
        ("/a/b.txt") ⟨1, FileMode.regular, 172800000000000, 0⟩
        ⟨none, Except.ok [], ⟨Except.ok [], Except.ok ""⟩, Except.ok "",
          ⟨Except.ok [], Except.ok [], Except.ok ()⟩⟩)) ↔
      ((172800000000000 : Int) - 0 > dayNs) :=
  creation_time_warning_amended ⟨false, false, [], true, false, ""⟩
    ⟨0, 0, 0, 0, 0, fun _ => 0, fun _ => [], fun _ => false⟩
    ("/a/b.txt") ⟨1, FileMode.regular, 172800000000000, 0⟩
    ⟨none, Except.ok [], ⟨Except.ok [], Except.ok ""⟩, Except.ok "",
      ⟨Except.ok [], Except.ok [], Except.ok ()⟩⟩
    rfl rfl rfl rfl (Or.inl rfl) rfl

/-- The attribute loop changes the aggregate maps at no key other than
the normalized-extension key of the entry. -/
theorem evalXattrsLoop_offkey (path : String) (size : Nat) (env : XattrEnv) :
    ∀ (attrs : List String) (report : String → Nat) (rr : String → List String)
      (warns : List String) (k : String), k ≠ reportKey path →
      (evalXattrsLoop path size env attrs report rr warns).1 k = report k ∧
      (evalXattrsLoop path size env attrs report rr warns).2.1 k = rr k := by
  intro attrs
  induction attrs with
  | nil => intro report rr warns k _; exact ⟨rfl, rfl⟩
  | cons a rest ih =>
    intro report rr warns k hk
    have hk2 : ¬ k = (if strictFileExtension path = "" then "(no extension)"
        else strictFileExtension path) := by
      simpa [reportKey] using hk
    by_cases ha : a = rfAttr
    · simp only [evalXattrsLoop, if_pos ha]
      split
      · exact ih _ _ _ k hk
      · obtain ⟨h1, h2⟩ := ih
          (fun k2 => if k2 = (if strictFileExtension path = "" then "(no extension)"
            else strictFileExtension path) then report k2 + 1 else report k2)
          (fun k2 => if k2 = (if strictFileExtension path = "" then "(no extension)"
            else strictFileExtension path) then uniqueStrings (rr k2 ++ extractedTypes env)
            else rr k2) _ k hk
        refine ⟨?_, ?_⟩
        · rw [h1]
          exact if_neg hk2
        · rw [h2]
          exact if_neg hk2
    · simp only [evalXattrsLoop, if_neg ha]
      exact ih _ _ _ k hk

/-- C10: the strict extension of every path is empty or a lowered
last-dot suffix matching the strict pattern, and this one normalization
keys all three consumers: the stripping exclusion test, both aggregate
resource-fork maps, and the extension catalog of the walker. -/
theorem extension_normalization (path : String) :
    (strictFileExtension path = "" ∨
      (validFileExtensionMatch (strictFileExtension path) = true ∧
        strictFileExtension path = goLower (filepathExt path))) ∧
    (∀ (attrs excl : List String) (dest : String) (env : StripEnv),
      strictFileExtension path ∈ excl →
      copyStrippedFile path attrs dest excl env = Except.ok ([], 0, [])) ∧
    (∀ (size : Nat) (attrs : List String) (env : XattrEnv)
      (report : String → Nat) (rr : String → List String) (k : String),
      k ≠ reportKey path →
      (evaluateXattrs path size attrs env report rr).1 k = report k ∧
      (evaluateXattrs path size attrs env report rr).2.1 k = rr k) ∧
    (∀ (cfg : Config) (st : WalkState) (info : FileInfo) (env : EntryEnv)
      (r : WalkState × Findings),
      isIgnoredFile (filepathBase path) = false → isIgnoredPath path = false →
      env.walkErr = none → info.mode = FileMode.regular →
      walkStep cfg st path info env = Except.ok r →
      r.1.fileExtensions = (fun k =>
        if k = strictFileExtension path then true else st.fileExtensions k)) := by
  refine ⟨?_, ?_, ?_, ?_⟩
  · by_cases h : validFileExtensionMatch (goLower (filepathExt path)) = true
    · right
      constructor
      · show validFileExtensionMatch (strictFileExtension path) = true
        simp [strictFileExtension, h]
      · simp [strictFileExtension, h]
    · left
      simp [strictFileExtension, h]
  · intro attrs excl dest env hmem
    have hc : excl.contains (strictFileExtension path) = true := List.elem_iff.mpr hmem
    simp only [copyStrippedFile]
    rw [if_pos hc]
  · intro size attrs env report rr k hk
    exact evalXattrsLoop_offkey path size env attrs report rr [] k hk
  · intro cfg st info env r hIF hIP hE hreg hstep
    have hIF2 : ¬ (isIgnoredFile (filepathBase path) = true) := by simp [hIF]
    have hIP2 : ¬ (isIgnoredPath path = true) := by simp [hIP]
    cases hcb : checkBasename path (decide (info.mode = FileMode.regular))
        cfg.allowTextMissingExtension env.probe with
    | error e =>
      simp only [walkStep, if_neg hIF2, if_neg hIP2, hE, if_pos (Or.inl hreg),
        hcb] at hstep
      exact absurd hstep (by simp)
    | ok lw =>
      cases hbig : (if cfg.stripResourceForks then
          copyStrippedFile path (removeIgnoredXattrs (match env.xattrList with
            | Except.error _ => []
            | Except.ok names => names)) cfg.strippedDir
            cfg.stripResourceIgnoredExtensions env.strip
        else Except.ok ([], 0, [])) with
      | error e3 =>
        simp only [walkStep, if_neg hIF2, if_neg hIP2, hE, if_pos (Or.inl hreg),
          hcb, hbig] at hstep
        exact absurd hstep (by simp)
      | ok sres =>
        simp only [walkStep, if_neg hIF2, if_neg hIP2, hE, if_pos (Or.inl hreg),
          hcb, hbig] at hstep
        injection hstep with h
        rw [← h]
        simp [hreg]

/-- Witness for C10: the excluded-extension branch of the stripped-copy
writer at a concrete excluded file. -/
theorem extension_normalization_witness :
    copyStrippedFile ("/a/x.png") [rfAttr] ("/dest") [".png"]
        ⟨Except.ok [1], Except.ok [2], Except.ok ()⟩ = Except.ok ([], 0, []) :=
  (extension_normalization ("/a/x.png")).2.1 [rfAttr] [".png"] ("/dest")
    ⟨Except.ok [1], Except.ok [2], Except.ok ()⟩ (by decide)

end Weirdfs
